import Mathlib

/-!
Shallow embedding of the crypto trading simulator
(`src/test-analysis-target.py`) together with proofs of the spec claims.

Modelling conventions:
- Python `float` values are embedded as `ℚ` (exact arithmetic over the
  rationals; the source uses only field operations and comparisons).
- Python `dict` (insertion-ordered, unique keys) is embedded as an
  association list with update-in-place semantics (`dset`), first-match
  lookup (`dget`) and first-match deletion (`derase`).
- `datetime.datetime.now()` is embedded as a logical clock (`clock : ℕ`)
  carried in the engine state and incremented at each call site.
- A Python exception escaping an operation (e.g. the `KeyError` raised by
  `self.portfolio[order.symbol] -= order.quantity` when the key is absent)
  is embedded as `Option.none`; a normal return is `some`.
- Mutation of an `Order` object (`order.status = EXECUTED`) is embedded by
  returning the updated record and substituting it where the Python object
  was referenced (the ledger list, the `executed_orders` list).
-/

namespace Trading

/-- `OrderType` enum of the source. -/
inductive OrderType where
  | buy
  | sell
deriving DecidableEq, Repr

/-- `OrderStatus` enum of the source. -/
inductive OrderStatus where
  | pending
  | executed
  | cancelled
deriving DecidableEq, Repr

/-- `MarketData` dataclass of the source (timestamp as logical clock). -/
structure MarketData where
  symbol : String
  price : ℚ
  volume : ℚ
  timestamp : ℕ
deriving DecidableEq, Repr

/-- `Order` dataclass of the source (timestamp as logical clock). -/
structure Order where
  order_id : String
  symbol : String
  order_type : OrderType
  quantity : ℚ
  target_price : ℚ
  timestamp : ℕ
  status : OrderStatus := OrderStatus.pending
deriving DecidableEq, Repr

/-- One entry of `trade_history` (the dict built by `_record_trade`). -/
structure TradeRecord where
  id : String
  symbol : String
  type : OrderType
  quantity : ℚ
  price : ℚ
  total : ℚ
  timestamp : ℕ
  balance_after : ℚ
deriving DecidableEq, Repr

/-- Association-list lookup: Python `d[k]` / `k in d` (first match). -/
def dget {β : Type} : List (String × β) → String → Option β
  | [], _ => none
  | (k, v) :: t, s => if k = s then some v else dget t s

/-- Python `d.get(k, dflt)`. -/
def dgetD {β : Type} (l : List (String × β)) (s : String) (dflt : β) : β :=
  (dget l s).getD dflt

/-- Python `d[k] = v`: overwrite in place if the key exists, else append. -/
def dset {β : Type} : List (String × β) → String → β → List (String × β)
  | [], s, v => [(s, v)]
  | (k, w) :: t, s, v => if k = s then (s, v) :: t else (k, w) :: dset t s v

/-- Python `del d[k]`: remove the entry for key `k` (dict keys are unique,
so this is the removal of the single matching entry, order preserved). -/
def derase {β : Type} (l : List (String × β)) (s : String) : List (String × β) :=
  l.filter (fun kv => decide (kv.1 ≠ s))

/-- Python `list.remove(x)`: drop the first element equal to `x`. -/
def removeFirst {α : Type} [DecidableEq α] : List α → α → List α
  | [], _ => []
  | a :: t, x => if a = x then t else a :: removeFirst t x

/-- Mutable state of a `TradingEngine` instance. -/
structure TradingEngine where
  balance : ℚ
  portfolio : List (String × ℚ)
  orders : List Order
  market_data : List (String × MarketData)
  trade_history : List TradeRecord
  clock : ℕ
deriving DecidableEq, Repr

/-- `TradingEngine.__init__(initial_balance)`. -/
def TradingEngine.init (initial_balance : ℚ) : TradingEngine :=
  { balance := initial_balance
    portfolio := []
    orders := []
    market_data := []
    trade_history := []
    clock := 0 }

/-- Zero-pad a decimal numeral to width 4, as Python `f"{n:04d}"` for `n ≥ 0`. -/
def pad4 (n : ℕ) : String :=
  let s := toString n
  if s.length < 4 then String.mk (List.replicate (4 - s.length) '0') ++ s else s

/-- The order id string `f"ORD_{n:04d}"`. -/
def orderIdString (n : ℕ) : String :=
  "ORD_" ++ pad4 n

/-- `TradingEngine._should_execute_order`. -/
def shouldExecuteOrder (o : Order) (current_price : ℚ) : Bool :=
  match o.order_type with
  | OrderType.buy => decide (current_price ≤ o.target_price)
  | OrderType.sell => decide (current_price ≥ o.target_price)

/-- `TradingEngine._record_trade` (uses the post-mutation balance). -/
def recordTrade (e : TradingEngine) (o : Order) (price total : ℚ) : TradingEngine :=
  { e with
    trade_history := e.trade_history ++
      [{ id := o.order_id
         symbol := o.symbol
         type := o.order_type
         quantity := o.quantity
         price := price
         total := total
         timestamp := e.clock
         balance_after := e.balance }]
    clock := e.clock + 1 }

/-- `TradingEngine._execute_order`.  Returns the new engine state, the order
object after any status mutation, and the boolean the Python function
returns; `none` embeds the `KeyError` raised by
`self.portfolio[order.symbol] -= order.quantity` when the symbol is absent
(reachable because `get(symbol, 0) >= quantity` passes for `quantity ≤ 0`). -/
def executeOrder (e : TradingEngine) (o : Order) (execution_price : ℚ) :
    Option (TradingEngine × Order × Bool) :=
  let total_cost := o.quantity * execution_price
  match o.order_type with
  | OrderType.buy =>
    if e.balance ≥ total_cost then
      let e1 := { e with balance := e.balance - total_cost }
      let e2 := { e1 with
        portfolio := dset e1.portfolio o.symbol (dgetD e1.portfolio o.symbol 0 + o.quantity) }
      let o' := { o with status := OrderStatus.executed }
      some (recordTrade e2 o' execution_price total_cost, o', true)
    else
      some (e, o, false)
  | OrderType.sell =>
    if dgetD e.portfolio o.symbol 0 ≥ o.quantity then
      let e1 := { e with balance := e.balance + total_cost }
      match dget e1.portfolio o.symbol with
      | none => none
      | some q =>
        let q' := q - o.quantity
        let e2 := { e1 with portfolio := dset e1.portfolio o.symbol q' }
        let e3 := if q' = 0 then { e2 with portfolio := derase e2.portfolio o.symbol } else e2
        let o' := { o with status := OrderStatus.executed }
        some (recordTrade e3 o' execution_price total_cost, o', true)
    else
      some (e, o, false)

/-- The `for order in self.orders` loop of `_process_pending_orders`:
threads the engine state, returns the traversed list (with status
mutations visible, as in the Python list) and the `executed_orders` list. -/
def sweepLoop (symbol : String) (current_price : ℚ) :
    TradingEngine → List Order → Option (TradingEngine × List Order × List Order)
  | e, [] => some (e, [], [])
  | e, o :: rest =>
    if o.symbol = symbol ∧ o.status = OrderStatus.pending ∧
        shouldExecuteOrder o current_price = true then
      match executeOrder e o current_price with
      | none => none
      | some (e', o', ex) =>
        match sweepLoop symbol current_price e' rest with
        | none => none
        | some (e'', os, exs) =>
          some (e'', o' :: os, if ex then o' :: exs else exs)
    else
      match sweepLoop symbol current_price e rest with
      | none => none
      | some (e'', os, exs) => some (e'', o :: os, exs)

/-- `TradingEngine._process_pending_orders` (`none` embeds the `KeyError`
of `self.market_data[symbol]` when no snapshot exists, and any exception
escaping an execution). -/
def processPendingOrders (e : TradingEngine) (symbol : String) : Option TradingEngine :=
  match dget e.market_data symbol with
  | none => none
  | some md =>
    match sweepLoop symbol md.price e e.orders with
    | none => none
    | some (e', os, exs) =>
      some { e' with orders := os.filter (fun o => decide (o ∉ exs)) }

/-- `TradingEngine.update_market_price`. -/
def updateMarketPrice (e : TradingEngine) (symbol : String) (price volume : ℚ) :
    Option TradingEngine :=
  let e1 := { e with
    market_data := dset e.market_data symbol
      { symbol := symbol, price := price, volume := volume, timestamp := e.clock }
    clock := e.clock + 1 }
  processPendingOrders e1 symbol

/-- `TradingEngine.place_order`.  Returns the new engine state and the
returned `Order` object (with its final status). -/
def placeOrder (e : TradingEngine) (symbol : String) (order_type : OrderType)
    (quantity target_price : ℚ) : Option (TradingEngine × Order) :=
  let order : Order :=
    { order_id := orderIdString (e.orders.length + 1)
      symbol := symbol
      order_type := order_type
      quantity := quantity
      target_price := target_price
      timestamp := e.clock
      status := OrderStatus.pending }
  let e1 := { e with orders := e.orders ++ [order], clock := e.clock + 1 }
  match dget e1.market_data symbol with
  | none => some (e1, order)
  | some md =>
    if shouldExecuteOrder order md.price then
      match executeOrder e1 order md.price with
      | none => none
      | some (e2, o', ex) =>
        if ex then
          some ({ e2 with orders := removeFirst (e.orders ++ [o']) o' }, o')
        else
          some (e2, o')
    else
      some (e1, order)

/-- `TradingEngine.get_portfolio_value`. -/
def getPortfolioValue (e : TradingEngine) : ℚ :=
  e.portfolio.foldl
    (fun acc sq =>
      match dget e.market_data sq.1 with
      | some md => acc + sq.2 * md.price
      | none => acc)
    e.balance

/-- The dict returned by `get_performance_metrics`. -/
structure Metrics where
  current_value : ℚ
  total_return : ℚ
  return_percentage : ℚ
  total_trades : ℕ
  cash_balance : ℚ
  portfolio_positions : ℕ
deriving DecidableEq, Repr

/-- `TradingEngine.get_performance_metrics` (note the hardcoded
`initial_value = 10000.0` of the source). -/
def getPerformanceMetrics (e : TradingEngine) : Metrics :=
  let current_value := getPortfolioValue e
  let initial_value : ℚ := 10000
  { current_value := current_value
    total_return := current_value - initial_value
    return_percentage := (current_value / initial_value - 1) * 100
    total_trades := e.trade_history.length
    cash_balance := e.balance
    portfolio_positions := e.portfolio.length }

/-- One public engine operation (a call made by an external caller). -/
inductive Op where
  | tick (symbol : String) (price volume : ℚ)
  | place (symbol : String) (order_type : OrderType) (quantity target_price : ℚ)
deriving DecidableEq, Repr

/-- Apply one operation to the engine state. -/
def applyOp (e : TradingEngine) : Op → Option TradingEngine
  | Op.tick s p v => updateMarketPrice e s p v
  | Op.place s t q tp => (placeOrder e s t q tp).map Prod.fst

/-- Run a sequence of operations from a given state. -/
def runFrom (e : TradingEngine) : List Op → Option TradingEngine
  | [] => some e
  | op :: t =>
    match applyOp e op with
    | none => none
    | some e' => runFrom e' t

/-- Run a sequence of operations on a freshly constructed engine. -/
def run (initial_balance : ℚ) (ops : List Op) : Option TradingEngine :=
  runFrom (TradingEngine.init initial_balance) ops

/-! ### Association-list lemmas -/

theorem dget_eq_some_mem {β : Type} {l : List (String × β)} {s : String} {v : β}
    (h : dget l s = some v) : (s, v) ∈ l := by
  induction l with
  | nil => simp [dget] at h
  | cons kv t ih =>
    obtain ⟨k, w⟩ := kv
    by_cases hk : k = s
    · subst hk
      simp [dget] at h
      simp [h]
    · simp [dget, hk] at h
      exact List.mem_cons_of_mem _ (ih h)

theorem mem_dset_elim {β : Type} {l : List (String × β)} {s : String} {v : β}
    {x : String × β} (h : x ∈ dset l s v) : x = (s, v) ∨ x ∈ l := by
  induction l with
  | nil => simpa [dset] using h
  | cons kv t ih =>
    obtain ⟨k, w⟩ := kv
    by_cases hk : k = s
    · subst hk
      rcases (by simpa [dset] using h : x = (k, v) ∨ x ∈ t) with h' | h'
      · exact Or.inl h'
      · exact Or.inr (List.mem_cons_of_mem _ h')
    · rcases (by simpa [dset, hk] using h : x = (k, w) ∨ x ∈ dset t s v) with h' | h'
      · exact Or.inr (by simp [h'])
      · rcases ih h' with h'' | h''
        · exact Or.inl h''
        · exact Or.inr (List.mem_cons_of_mem _ h'')

theorem dget_dset_self {β : Type} (l : List (String × β)) (s : String) (v : β) :
    dget (dset l s v) s = some v := by
  induction l with
  | nil => simp [dset, dget]
  | cons kv t ih =>
    obtain ⟨k, w⟩ := kv
    by_cases hk : k = s
    · subst hk
      simp [dset, dget]
    · simp [dset, dget, hk, ih]

theorem dget_dset_of_ne {β : Type} (l : List (String × β)) {s t : String} (v : β)
    (h : t ≠ s) : dget (dset l s v) t = dget l t := by
  have hst : s ≠ t := Ne.symm h
  induction l with
  | nil => simp [dset, dget, hst]
  | cons kv r ih =>
    obtain ⟨k, w⟩ := kv
    by_cases hk : k = s
    · subst hk
      simp [dset, dget, hst]
    · by_cases hkt : k = t
      · subst hkt
        simp [dset, dget, hk]
      · simp [dset, dget, hk, hkt, ih]

theorem mem_derase_elim {β : Type} {l : List (String × β)} {s : String}
    {x : String × β} (h : x ∈ derase l s) : x ∈ l := by
  exact (List.mem_filter.mp h).1

theorem dget_derase_self {β : Type} (l : List (String × β)) (s : String) :
    dget (derase l s) s = none := by
  induction l with
  | nil => simp [derase, dget]
  | cons kv t ih =>
    obtain ⟨k, w⟩ := kv
    by_cases hk : k = s
    · subst hk
      simpa [derase, dget] using ih
    · simpa [derase, dget, hk] using ih

theorem dgetD_nonneg_of {l : List (String × ℚ)} {s : String}
    (h : ∀ sq ∈ l, (0:ℚ) ≤ sq.2) : 0 ≤ dgetD l s 0 := by
  unfold dgetD
  cases hg : dget l s with
  | none => simp
  | some v =>
    simpa using h _ (dget_eq_some_mem hg)

theorem dget_eq_dgetD {β : Type} {l : List (String × β)} {s : String} {v : β}
    (d : β) (h : dget l s = some v) : dgetD l s d = v := by
  simp [dgetD, h]

theorem mem_removeFirst_elim {α : Type} [DecidableEq α] {l : List α} {a x : α}
    (h : x ∈ removeFirst l a) : x ∈ l := by
  induction l with
  | nil => simp [removeFirst] at h
  | cons b t ih =>
    by_cases hb : b = a
    · subst hb
      simp [removeFirst] at h
      exact List.mem_cons_of_mem _ h
    · rcases (by simpa [removeFirst, hb] using h : x = b ∨ x ∈ removeFirst t a) with h' | h'
      · simp [h']
      · exact List.mem_cons_of_mem _ (ih h')

/-! ### Execution settler lemmas -/

theorem executeOrder_frame {e e' : TradingEngine} {o o' : Order} {p : ℚ} {ex : Bool}
    (h : executeOrder e o p = some (e', o', ex)) :
    e'.market_data = e.market_data ∧ e'.orders = e.orders ∧
    o'.symbol = o.symbol ∧ o'.quantity = o.quantity ∧ o'.order_type = o.order_type ∧
    (ex = false → e' = e ∧ o' = o) ∧
    (ex = true → o' = { o with status := OrderStatus.executed }) := by
  simp only [executeOrder] at h
  split at h
  · split at h
    · simp only [Option.some.injEq, Prod.mk.injEq] at h
      obtain ⟨he, ho, hex⟩ := h
      subst he; subst ho; subst hex
      simp [recordTrade]
    · simp only [Option.some.injEq, Prod.mk.injEq] at h
      obtain ⟨he, ho, hex⟩ := h
      subst he; subst ho; subst hex
      simp
  · split at h
    · split at h
      · exact absurd h (by simp)
      · simp only [Option.some.injEq, Prod.mk.injEq] at h
        obtain ⟨he, ho, hex⟩ := h
        subst he; subst ho; subst hex
        simp [recordTrade, apply_ite TradingEngine.market_data, apply_ite TradingEngine.orders]
    · simp only [Option.some.injEq, Prod.mk.injEq] at h
      obtain ⟨he, ho, hex⟩ := h
      subst he; subst ho; subst hex
      simp

theorem executeOrder_nonneg {e e' : TradingEngine} {o o' : Order} {p : ℚ} {ex : Bool}
    (hb : 0 ≤ e.balance) (hp : ∀ sq ∈ e.portfolio, (0:ℚ) ≤ sq.2)
    (hq : 0 ≤ o.quantity) (hpr : 0 ≤ p)
    (h : executeOrder e o p = some (e', o', ex)) :
    0 ≤ e'.balance ∧ ∀ sq ∈ e'.portfolio, (0:ℚ) ≤ sq.2 := by
  simp only [executeOrder] at h
  split at h
  · -- buy path
    split at h
    · rename_i hguard
      simp only [Option.some.injEq, Prod.mk.injEq] at h
      obtain ⟨he, ho, hex⟩ := h
      subst he
      refine ⟨by simpa [recordTrade] using sub_nonneg.mpr hguard, ?_⟩
      intro sq hsq
      simp only [recordTrade] at hsq
      rcases mem_dset_elim hsq with h' | h'
      · subst h'
        exact add_nonneg (dgetD_nonneg_of hp) hq
      · exact hp _ h'
    · simp only [Option.some.injEq, Prod.mk.injEq] at h
      obtain ⟨he, ho, hex⟩ := h
      subst he
      exact ⟨hb, hp⟩
  · -- sell path
    split at h
    · rename_i hguard
      split at h
      · exact absurd h (by simp)
      · rename_i qv hqv
        simp only [Option.some.injEq, Prod.mk.injEq] at h
        obtain ⟨he, ho, hex⟩ := h
        subst he
        have hqv0 : dgetD e.portfolio o.symbol 0 = qv := dget_eq_dgetD 0 hqv
        have hq' : (0:ℚ) ≤ qv - o.quantity := sub_nonneg.mpr (hqv0 ▸ hguard)
        constructor
        · simpa [recordTrade, apply_ite TradingEngine.balance] using
            add_nonneg hb (mul_nonneg hq hpr)
        · intro sq hsq
          simp only [recordTrade] at hsq
          split at hsq
          · rcases mem_dset_elim (mem_derase_elim hsq) with h' | h'
            · subst h'; exact hq'
            · exact hp _ h'
          · rcases mem_dset_elim hsq with h' | h'
            · subst h'; exact hq'
            · exact hp _ h'
    · simp only [Option.some.injEq, Prod.mk.injEq] at h
      obtain ⟨he, ho, hex⟩ := h
      subst he
      exact ⟨hb, hp⟩

theorem executeOrder_pos {e : TradingEngine} {o : Order} {p : ℚ}
    (hp : ∀ sq ∈ e.portfolio, (0:ℚ) < sq.2) (hq : 0 < o.quantity) :
    ∃ e' o' ex, executeOrder e o p = some (e', o', ex) ∧
      ∀ sq ∈ e'.portfolio, (0:ℚ) < sq.2 := by
  simp only [executeOrder]
  split
  · -- buy path
    split
    · refine ⟨_, _, _, rfl, ?_⟩
      intro sq hsq
      simp only [recordTrade] at hsq
      rcases mem_dset_elim hsq with h' | h'
      · subst h'
        have : (0:ℚ) ≤ dgetD e.portfolio o.symbol 0 :=
          dgetD_nonneg_of (fun sq hsq => le_of_lt (hp sq hsq))
        simpa using add_pos_of_nonneg_of_pos this hq
      · exact hp _ h'
    · exact ⟨_, _, _, rfl, hp⟩
  · -- sell path
    split
    · rename_i hguard
      cases hqv : dget e.portfolio o.symbol with
      | none =>
        exfalso
        have : dgetD e.portfolio o.symbol 0 = 0 := by simp [dgetD, hqv]
        rw [this] at hguard
        exact absurd (lt_of_lt_of_le hq hguard) (lt_irrefl 0)
      | some qv =>
        refine ⟨_, _, _, rfl, ?_⟩
        intro sq hsq
        simp only [recordTrade] at hsq
        have hqv0 : dgetD e.portfolio o.symbol 0 = qv := dget_eq_dgetD 0 hqv
        split at hsq
        · rcases mem_dset_elim (mem_derase_elim hsq) with h' | h'
          · subst h'
            exfalso
            have := (List.mem_filter.mp hsq).2
            simp at this
          · exact hp _ h'
        · rename_i hz
          rcases mem_dset_elim hsq with h' | h'
          · subst h'
            have hge : qv - o.quantity ≥ 0 := sub_nonneg.mpr (hqv0 ▸ hguard)
            exact lt_of_le_of_ne hge (Ne.symm hz)
          · exact hp _ h'
    · exact ⟨_, _, _, rfl, hp⟩

/-! ### Ledger sweep lemmas -/

theorem sweepLoop_frame {s : String} {p : ℚ} {e e'' : TradingEngine}
    {l os exs : List Order}
    (h : sweepLoop s p e l = some (e'', os, exs)) :
    e''.market_data = e.market_data ∧ e''.orders = e.orders ∧
    (∀ o' ∈ exs, o'.symbol = s) ∧
    os.filter (fun o => decide (o.symbol ≠ s)) = l.filter (fun o => decide (o.symbol ≠ s)) ∧
    (∀ o' ∈ os, ∃ o ∈ l, o'.quantity = o.quantity) := by
  induction l generalizing e e'' os exs with
  | nil =>
    simp only [sweepLoop, Option.some.injEq, Prod.mk.injEq] at h
    obtain ⟨he, hos, hexs⟩ := h
    subst he; subst hos; subst hexs
    simp
  | cons o rest ih =>
    by_cases hc : o.symbol = s ∧ o.status = OrderStatus.pending ∧
        shouldExecuteOrder o p = true
    · rw [sweepLoop, if_pos hc] at h
      cases hE : executeOrder e o p with
      | none => rw [hE] at h; exact absurd h (by simp)
      | some r =>
        obtain ⟨e', o', ex⟩ := r
        rw [hE] at h
        dsimp only at h
        cases hS : sweepLoop s p e' rest with
        | none => rw [hS] at h; exact absurd h (by simp)
        | some r2 =>
          obtain ⟨e2, os2, exs2⟩ := r2
          rw [hS] at h
          simp only [Option.some.injEq, Prod.mk.injEq] at h
          obtain ⟨he, hos, hexs⟩ := h
          subst he; subst hos; subst hexs
          obtain ⟨hmd, hord, hsym, hqty, _, _, _⟩ := executeOrder_frame hE
          obtain ⟨ihmd, ihord, ihexs, ihfil, ihqty⟩ := ih hS
          refine ⟨by rw [ihmd, hmd], by rw [ihord, hord], ?_, ?_, ?_⟩
          · intro x hx
            cases ex with
            | true =>
              rcases (by simpa using hx : x = o' ∨ x ∈ exs2) with h' | h'
              · subst h'; rw [hsym, hc.1]
              · exact ihexs _ h'
            | false => exact ihexs _ (by simpa using hx)
          · have hos' : o'.symbol = s := by rw [hsym, hc.1]
            simp only [List.filter_cons, hos', hc.1]
            simpa using ihfil
          · intro x hx
            rcases (by simpa using hx : x = o' ∨ x ∈ os2) with h' | h'
            · exact ⟨o, by simp, by rw [h', hqty]⟩
            · obtain ⟨y, hy, hq⟩ := ihqty _ h'
              exact ⟨y, List.mem_cons_of_mem _ hy, hq⟩
    · rw [sweepLoop, if_neg hc] at h
      cases hS : sweepLoop s p e rest with
      | none => rw [hS] at h; exact absurd h (by simp)
      | some r2 =>
        obtain ⟨e2, os2, exs2⟩ := r2
        rw [hS] at h
        simp only [Option.some.injEq, Prod.mk.injEq] at h
        obtain ⟨he, hos, hexs⟩ := h
        subst he; subst hos; subst hexs
        obtain ⟨ihmd, ihord, ihexs, ihfil, ihqty⟩ := ih hS
        refine ⟨ihmd, ihord, ihexs, ?_, ?_⟩
        · simp only [List.filter_cons, ihfil]
        · intro x hx
          rcases (by simpa using hx : x = o ∨ x ∈ os2) with h' | h'
          · exact ⟨o, by simp, by rw [h']⟩
          · obtain ⟨y, hy, hq⟩ := ihqty _ h'
            exact ⟨y, List.mem_cons_of_mem _ hy, hq⟩

theorem sweepLoop_nonneg {s : String} {p : ℚ} {e e'' : TradingEngine}
    {l os exs : List Order}
    (hb : 0 ≤ e.balance) (hp : ∀ sq ∈ e.portfolio, (0:ℚ) ≤ sq.2)
    (hl : ∀ o ∈ l, (0:ℚ) ≤ o.quantity) (hpr : 0 ≤ p)
    (h : sweepLoop s p e l = some (e'', os, exs)) :
    0 ≤ e''.balance ∧ ∀ sq ∈ e''.portfolio, (0:ℚ) ≤ sq.2 := by
  induction l generalizing e e'' os exs with
  | nil =>
    simp only [sweepLoop, Option.some.injEq, Prod.mk.injEq] at h
    obtain ⟨he, _, _⟩ := h
    subst he
    exact ⟨hb, hp⟩
  | cons o rest ih =>
    by_cases hc : o.symbol = s ∧ o.status = OrderStatus.pending ∧
        shouldExecuteOrder o p = true
    · rw [sweepLoop, if_pos hc] at h
      cases hE : executeOrder e o p with
      | none => rw [hE] at h; exact absurd h (by simp)
      | some r =>
        obtain ⟨e', o', ex⟩ := r
        rw [hE] at h
        dsimp only at h
        cases hS : sweepLoop s p e' rest with
        | none => rw [hS] at h; exact absurd h (by simp)
        | some r2 =>
          obtain ⟨e2, os2, exs2⟩ := r2
          rw [hS] at h
          simp only [Option.some.injEq, Prod.mk.injEq] at h
          obtain ⟨he, _, _⟩ := h
          subst he
          obtain ⟨hb', hp'⟩ :=
            executeOrder_nonneg hb hp (hl o (by simp)) hpr hE
          exact ih hb' hp' (fun x hx => hl x (List.mem_cons_of_mem _ hx)) hS
    · rw [sweepLoop, if_neg hc] at h
      cases hS : sweepLoop s p e rest with
      | none => rw [hS] at h; exact absurd h (by simp)
      | some r2 =>
        obtain ⟨e2, os2, exs2⟩ := r2
        rw [hS] at h
        simp only [Option.some.injEq, Prod.mk.injEq] at h
        obtain ⟨he, _, _⟩ := h
        subst he
        exact ih hb hp (fun x hx => hl x (List.mem_cons_of_mem _ hx)) hS

theorem sweepLoop_pos {s : String} {p : ℚ} {e : TradingEngine} {l : List Order}
    (hp : ∀ sq ∈ e.portfolio, (0:ℚ) < sq.2)
    (hl : ∀ o ∈ l, (0:ℚ) < o.quantity) :
    ∃ e'' os exs, sweepLoop s p e l = some (e'', os, exs) ∧
      ∀ sq ∈ e''.portfolio, (0:ℚ) < sq.2 := by
  induction l generalizing e with
  | nil => exact ⟨e, [], [], by simp [sweepLoop], hp⟩
  | cons o rest ih =>
    by_cases hc : o.symbol = s ∧ o.status = OrderStatus.pending ∧
        shouldExecuteOrder o p = true
    · obtain ⟨e', o', ex, hE, hp'⟩ := executeOrder_pos hp (hl o (by simp))
      obtain ⟨e2, os2, exs2, hS, hp''⟩ :=
        ih hp' (fun x hx => hl x (List.mem_cons_of_mem _ hx)) (e := e')
      refine ⟨e2, o' :: os2, if ex then o' :: exs2 else exs2, ?_, hp''⟩
      rw [sweepLoop, if_pos hc, hE]
      dsimp only
      rw [hS]
    · obtain ⟨e2, os2, exs2, hS, hp''⟩ :=
        ih hp (fun x hx => hl x (List.mem_cons_of_mem _ hx)) (e := e)
      refine ⟨e2, o :: os2, exs2, ?_, hp''⟩
      rw [sweepLoop, if_neg hc, hS]

theorem sweepLoop_noop {s : String} {p : ℚ} {e : TradingEngine} {l : List Order}
    (h : ∀ o ∈ l, o.symbol = s → o.status = OrderStatus.pending →
      shouldExecuteOrder o p = false) :
    sweepLoop s p e l = some (e, l, []) := by
  induction l with
  | nil => simp [sweepLoop]
  | cons o rest ih =>
    have hc : ¬(o.symbol = s ∧ o.status = OrderStatus.pending ∧
        shouldExecuteOrder o p = true) := by
      rintro ⟨h1, h2, h3⟩
      have := h o (by simp) h1 h2
      rw [this] at h3
      exact absurd h3 (by simp)
    rw [sweepLoop, if_neg hc, ih (fun x hx => h x (List.mem_cons_of_mem _ hx))]

/-! ### Engine-level invariants -/

/-- Caller inputs with non-negative tick prices and order quantities. -/
def nonnegInputs : Op → Bool
  | Op.tick _ p _ => decide (0 ≤ p)
  | Op.place _ _ q _ => decide (0 ≤ q)

/-- Caller inputs whose order quantities are positive (the spec's caller
contract `quantity > 0`). -/
def posQuantities : Op → Bool
  | Op.tick _ _ _ => true
  | Op.place _ _ q _ => decide (0 < q)

/-- Invariant for the no-negative claim: balance, holdings entries, snapshot
prices and resting-order quantities are all non-negative. -/
def InvNonneg (e : TradingEngine) : Prop :=
  0 ≤ e.balance ∧ (∀ sq ∈ e.portfolio, (0:ℚ) ≤ sq.2) ∧
  (∀ km ∈ e.market_data, (0:ℚ) ≤ km.2.price) ∧
  (∀ o ∈ e.orders, (0:ℚ) ≤ o.quantity)

/-- Invariant for the positive-quantity regime: holdings entries and
resting-order quantities are strictly positive. -/
def InvPos (e : TradingEngine) : Prop :=
  (∀ sq ∈ e.portfolio, (0:ℚ) < sq.2) ∧ (∀ o ∈ e.orders, (0:ℚ) < o.quantity)

theorem updateMarketPrice_nonneg {e e' : TradingEngine} {s : String} {p v : ℚ}
    (hI : InvNonneg e) (hp : 0 ≤ p)
    (h : updateMarketPrice e s p v = some e') : InvNonneg e' := by
  obtain ⟨hb, hpf, hmk, hoq⟩ := hI
  simp only [updateMarketPrice, processPendingOrders] at h
  rw [dget_dset_self] at h
  dsimp only at h
  cases hS : sweepLoop s p
      { e with
        market_data := dset e.market_data s
          { symbol := s, price := p, volume := v, timestamp := e.clock }
        clock := e.clock + 1 } e.orders with
  | none => rw [hS] at h; exact absurd h (by simp)
  | some r =>
    obtain ⟨e2, os, exs⟩ := r
    rw [hS] at h
    dsimp only at h
    simp only [Option.some.injEq] at h
    subst h
    obtain ⟨hb2, hpf2⟩ := sweepLoop_nonneg (by simpa using hb) (by simpa using hpf)
      (by simpa using hoq) hp hS
    obtain ⟨hmd2, _, _, _, hqty2⟩ := sweepLoop_frame hS
    refine ⟨hb2, hpf2, ?_, ?_⟩
    · intro km hkm
      simp only [hmd2] at hkm
      rcases mem_dset_elim hkm with h' | h'
      · subst h'
        simpa using hp
      · exact hmk _ h'
    · intro o ho
      have ho' := (List.mem_filter.mp ho).1
      obtain ⟨y, hy, hq⟩ := hqty2 _ ho'
      rw [hq]
      exact hoq _ (by simpa using hy)

theorem placeOrder_nonneg {e e' : TradingEngine} {o' : Order} {s : String}
    {t : OrderType} {q tp : ℚ}
    (hI : InvNonneg e) (hq : 0 ≤ q)
    (h : placeOrder e s t q tp = some (e', o')) : InvNonneg e' := by
  obtain ⟨hb, hpf, hmk, hoq⟩ := hI
  simp only [placeOrder] at h
  generalize ho0 : ({ order_id := orderIdString (e.orders.length + 1), symbol := s, order_type := t, quantity := q, target_price := tp, timestamp := e.clock, status := OrderStatus.pending } : Order) = o0 at h
  have ho0q : (0:ℚ) ≤ o0.quantity := by rw [← ho0]; simpa using hq
  have hoq1 : ∀ x ∈ e.orders ++ [o0], (0:ℚ) ≤ x.quantity := by
    intro x hx
    rcases List.mem_append.mp hx with h' | h'
    · exact hoq _ h'
    · simp only [List.mem_singleton] at h'
      subst h'
      exact ho0q
  cases hmd : dget e.market_data s with
  | none =>
    rw [hmd] at h
    dsimp only at h
    simp only [Option.some.injEq, Prod.mk.injEq] at h
    obtain ⟨he, _⟩ := h
    subst he
    exact ⟨hb, hpf, hmk, hoq1⟩
  | some md =>
    have hmdp : 0 ≤ md.price := by
      simpa using hmk _ (dget_eq_some_mem hmd)
    rw [hmd] at h
    dsimp only at h
    split at h
    · cases hE : executeOrder { e with orders := e.orders ++ [o0], clock := e.clock + 1 } o0 md.price with
      | none => rw [hE] at h; exact absurd h (by simp)
      | some r =>
        obtain ⟨e2, o2, ex⟩ := r
        rw [hE] at h
        dsimp only at h
        obtain ⟨hb2, hpf2⟩ := executeOrder_nonneg (by simpa using hb) (by simpa using hpf)
          ho0q hmdp hE
        obtain ⟨hmd2, hord2, _, hqty2, _, _, _⟩ := executeOrder_frame hE
        cases ex with
        | true =>
          simp only [if_pos rfl, ite_true, Option.some.injEq, Prod.mk.injEq] at h
          obtain ⟨he, _⟩ := h
          subst he
          refine ⟨hb2, hpf2, by simpa [hmd2] using hmk, ?_⟩
          intro x hx
          have hx' := mem_removeFirst_elim hx
          rcases List.mem_append.mp hx' with h' | h'
          · exact hoq _ h'
          · simp only [List.mem_singleton] at h'
            subst h'
            rw [hqty2]
            exact ho0q
        | false =>
          simp only [Bool.false_eq_true, ite_false, Option.some.injEq, Prod.mk.injEq] at h
          obtain ⟨he, _⟩ := h
          subst he
          refine ⟨hb2, hpf2, by simpa [hmd2] using hmk, ?_⟩
          intro x hx
          rw [hord2] at hx
          exact hoq1 x (by simpa using hx)
    · simp only [Option.some.injEq, Prod.mk.injEq] at h
      obtain ⟨he, _⟩ := h
      subst he
      exact ⟨hb, hpf, hmk, hoq1⟩

theorem applyOp_nonneg {e e' : TradingEngine} {op : Op}
    (hI : InvNonneg e) (hop : nonnegInputs op = true)
    (h : applyOp e op = some e') : InvNonneg e' := by
  cases op with
  | tick s p v =>
    exact updateMarketPrice_nonneg hI (by simpa [nonnegInputs] using hop) h
  | place s t q tp =>
    simp only [applyOp, Option.map_eq_some'] at h
    obtain ⟨⟨e2, o2⟩, h2, he⟩ := h
    subst he
    exact placeOrder_nonneg hI (by simpa [nonnegInputs] using hop) h2

theorem runFrom_nonneg {e e' : TradingEngine} {ops : List Op}
    (hI : InvNonneg e) (hops : ∀ op ∈ ops, nonnegInputs op = true)
    (h : runFrom e ops = some e') : InvNonneg e' := by
  induction ops generalizing e with
  | nil =>
    simp only [runFrom, Option.some.injEq] at h
    subst h
    exact hI
  | cons op rest ih =>
    simp only [runFrom] at h
    cases hA : applyOp e op with
    | none => rw [hA] at h; exact absurd h (by simp)
    | some e1 =>
      rw [hA] at h
      dsimp only at h
      exact ih (applyOp_nonneg hI (hops op (by simp)) hA)
        (fun x hx => hops x (List.mem_cons_of_mem _ hx)) h

theorem updateMarketPrice_pos {e : TradingEngine} (s : String) (p v : ℚ)
    (hI : InvPos e) : ∃ e', updateMarketPrice e s p v = some e' ∧ InvPos e' := by
  obtain ⟨hpf, hoq⟩ := hI
  obtain ⟨e2, os, exs, hS, hpf2⟩ := sweepLoop_pos
    (e := { e with market_data := dset e.market_data s { symbol := s, price := p, volume := v, timestamp := e.clock }, clock := e.clock + 1 })
    (s := s) (p := p) (l := e.orders) (fun sq hsq => hpf sq hsq) (fun o ho => hoq o ho)
  refine ⟨{ e2 with orders := os.filter (fun o => decide (o ∉ exs)) }, ?_, ?_, ?_⟩
  · simp only [updateMarketPrice, processPendingOrders]
    rw [dget_dset_self]
    dsimp only
    rw [hS]
  · intro sq hsq
    exact hpf2 sq hsq
  · intro o ho
    have ho' := (List.mem_filter.mp ho).1
    obtain ⟨y, hy, hq⟩ := (sweepLoop_frame hS).2.2.2.2 _ ho'
    rw [hq]
    exact hoq _ hy

theorem placeOrder_pos {e : TradingEngine} (s : String) (t : OrderType) (q tp : ℚ)
    (hI : InvPos e) (hq : 0 < q) :
    ∃ e' o', placeOrder e s t q tp = some (e', o') ∧ InvPos e' := by
  obtain ⟨hpf, hoq⟩ := hI
  simp only [placeOrder]
  generalize ho0 : ({ order_id := orderIdString (e.orders.length + 1), symbol := s, order_type := t, quantity := q, target_price := tp, timestamp := e.clock, status := OrderStatus.pending } : Order) = o0
  have ho0q : (0:ℚ) < o0.quantity := by rw [← ho0]; simpa using hq
  have hoq1 : ∀ x ∈ e.orders ++ [o0], (0:ℚ) < x.quantity := by
    intro x hx
    rcases List.mem_append.mp hx with h' | h'
    · exact hoq _ h'
    · simp only [List.mem_singleton] at h'
      subst h'
      exact ho0q
  cases hmd : dget e.market_data s with
  | none =>
    refine ⟨_, _, rfl, ?_, ?_⟩
    · intro sq hsq
      exact hpf sq hsq
    · intro x hx
      exact hoq1 x hx
  | some md =>
    dsimp only
    by_cases hf : shouldExecuteOrder o0 md.price = true
    · rw [if_pos hf]
      obtain ⟨e2, o2, ex, hE, hpf2⟩ := executeOrder_pos
        (e := { e with orders := e.orders ++ [o0], clock := e.clock + 1 })
        (p := md.price) (fun sq hsq => hpf sq hsq) ho0q
      rw [hE]
      dsimp only
      obtain ⟨hmd2, hord2, _, hqty2, _, _, _⟩ := executeOrder_frame hE
      cases ex with
      | true =>
        rw [if_pos rfl]
        refine ⟨_, _, rfl, ?_, ?_⟩
        · intro sq hsq
          exact hpf2 sq hsq
        · intro x hx
          have hx' := mem_removeFirst_elim hx
          rcases List.mem_append.mp hx' with h' | h'
          · exact hoq _ h'
          · simp only [List.mem_singleton] at h'
            subst h'
            rw [hqty2]
            exact ho0q
      | false =>
        rw [if_neg (by simp)]
        refine ⟨_, _, rfl, ?_, ?_⟩
        · intro sq hsq
          exact hpf2 sq hsq
        · intro x hx
          rw [hord2] at hx
          exact hoq1 x hx
    · rw [if_neg hf]
      refine ⟨_, _, rfl, ?_, ?_⟩
      · intro sq hsq
        exact hpf sq hsq
      · intro x hx
        exact hoq1 x hx

theorem applyOp_pos {e : TradingEngine} {op : Op}
    (hI : InvPos e) (hop : posQuantities op = true) :
    ∃ e', applyOp e op = some e' ∧ InvPos e' := by
  cases op with
  | tick s p v =>
    obtain ⟨e', h, hI'⟩ := updateMarketPrice_pos s p v hI
    exact ⟨e', h, hI'⟩
  | place s t q tp =>
    have hq : (0:ℚ) < q := by simpa [posQuantities] using hop
    obtain ⟨e', o', h, hI'⟩ := placeOrder_pos s t q tp hI hq
    exact ⟨e', by simp [applyOp, h], hI'⟩

theorem runFrom_pos {e : TradingEngine} {ops : List Op}
    (hI : InvPos e) (hops : ∀ op ∈ ops, posQuantities op = true) :
    ∃ e', runFrom e ops = some e' ∧ InvPos e' := by
  induction ops generalizing e with
  | nil => exact ⟨e, rfl, hI⟩
  | cons op rest ih =>
    obtain ⟨e1, h1, hI1⟩ := applyOp_pos hI (hops op (by simp))
    obtain ⟨e', h', hI'⟩ := ih hI1 (fun x hx => hops x (List.mem_cons_of_mem _ hx))
    refine ⟨e', ?_, hI'⟩
    rw [runFrom, h1]
    dsimp only
    exact h'

/-! ### Claim theorems -/

/-- C4: the matching rule is a pure predicate: a Buy order is fireable iff
`current_price ≤ target_price`, a Sell order is fireable iff
`current_price ≥ target_price`, and exact equality counts as fireable on
both sides.  (`shouldExecuteOrder` is a pure function by construction.) -/
theorem C4_matching_rule (o : Order) (p : ℚ) :
    (o.order_type = OrderType.buy → (shouldExecuteOrder o p = true ↔ p ≤ o.target_price)) ∧
    (o.order_type = OrderType.sell → (shouldExecuteOrder o p = true ↔ p ≥ o.target_price)) ∧
    (p = o.target_price → shouldExecuteOrder o p = true) := by
  obtain ⟨i, sym, ot, q, tp, ts, st⟩ := o
  cases ot with
  | buy =>
    refine ⟨fun _ => by simp [shouldExecuteOrder], fun h => by simp at h, fun h => ?_⟩
    simp only at h
    subst h
    simp [shouldExecuteOrder]
  | sell =>
    refine ⟨fun h => by simp at h, fun _ => by simp [shouldExecuteOrder], fun h => ?_⟩
    simp only at h
    subst h
    simp [shouldExecuteOrder]

/-- Witness for C4 at concrete orders and prices. -/
theorem C4_matching_rule_witness :
    (shouldExecuteOrder { order_id := "ORD_0001", symbol := "X", order_type := OrderType.buy, quantity := 1, target_price := 5, timestamp := 0, status := OrderStatus.pending } 4 = true ↔ (4:ℚ) ≤ 5) ∧
    (shouldExecuteOrder { order_id := "ORD_0002", symbol := "X", order_type := OrderType.sell, quantity := 1, target_price := 5, timestamp := 0, status := OrderStatus.pending } 6 = true ↔ (6:ℚ) ≥ 5) ∧
    shouldExecuteOrder { order_id := "ORD_0003", symbol := "X", order_type := OrderType.sell, quantity := 1, target_price := 5, timestamp := 0, status := OrderStatus.pending } 5 = true :=
  ⟨(C4_matching_rule _ 4).1 rfl, (C4_matching_rule _ 6).2.1 rfl,
    (C4_matching_rule _ 5).2.2 rfl⟩

/-- C3: when execution fails for insufficient resources (buy with
`balance < quantity * price`, sell with held quantity below the order
quantity) the settler performs no state mutation, leaves the order Pending
and reports `false` (a non-exceptional result); on success all mutations
(balance, holdings, status, trade history) commit together. -/
theorem C3_settler_atomicity (e : TradingEngine) (o : Order) (p : ℚ) :
    (((o.order_type = OrderType.buy ∧ e.balance < o.quantity * p) ∨
      (o.order_type = OrderType.sell ∧ dgetD e.portfolio o.symbol 0 < o.quantity)) →
      executeOrder e o p = some (e, o, false)) ∧
    (∀ e' o', executeOrder e o p = some (e', o', true) →
      o'.status = OrderStatus.executed ∧
      e'.trade_history = e.trade_history ++
        [{ id := o.order_id, symbol := o.symbol, type := o.order_type,
           quantity := o.quantity, price := p, total := o.quantity * p,
           timestamp := e.clock, balance_after := e'.balance }] ∧
      (o.order_type = OrderType.buy →
        e.balance ≥ o.quantity * p ∧
        e'.balance = e.balance - o.quantity * p ∧
        e'.portfolio = dset e.portfolio o.symbol (dgetD e.portfolio o.symbol 0 + o.quantity)) ∧
      (o.order_type = OrderType.sell →
        dgetD e.portfolio o.symbol 0 ≥ o.quantity ∧
        e'.balance = e.balance + o.quantity * p ∧
        ∃ qv, dget e.portfolio o.symbol = some qv ∧
          e'.portfolio = (if qv - o.quantity = 0
            then derase (dset e.portfolio o.symbol (qv - o.quantity)) o.symbol
            else dset e.portfolio o.symbol (qv - o.quantity)))) := by
  constructor
  · rintro (⟨hty, hlt⟩ | ⟨hty, hlt⟩) <;>
    · simp only [executeOrder, hty]
      rw [if_neg (by simpa using not_le.mpr hlt)]
  · intro e' o' h
    simp only [executeOrder] at h
    split at h
    · rename_i hty
      split at h
      · rename_i hguard
        simp only [Option.some.injEq, Prod.mk.injEq] at h
        obtain ⟨he, ho, _⟩ := h
        subst he
        subst ho
        refine ⟨rfl, by simp [recordTrade], fun _ => ⟨hguard, by simp [recordTrade], by simp [recordTrade]⟩, fun hsell => ?_⟩
        rw [hty] at hsell
        exact absurd hsell (by simp)
      · simp only [Option.some.injEq, Prod.mk.injEq] at h
        exact absurd h.2.2 (by simp)
    · rename_i hty
      split at h
      · rename_i hguard
        split at h
        · exact absurd h (by simp)
        · rename_i qv hqv
          simp only [Option.some.injEq, Prod.mk.injEq] at h
          obtain ⟨he, ho, _⟩ := h
          subst he
          subst ho
          refine ⟨rfl, ?_, fun hbuy => ?_, fun _ => ⟨hguard, ?_, qv, hqv, ?_⟩⟩
          · simp only [recordTrade]
            split <;> simp
          · rw [hty] at hbuy
            exact absurd hbuy (by simp)
          · simp only [recordTrade, apply_ite TradingEngine.balance]
            split <;> simp
          · simp only [recordTrade]
            split <;> rfl
      · simp only [Option.some.injEq, Prod.mk.injEq] at h
        exact absurd h.2.2 (by simp)

/-- Witness for C3: a buy rejected for insufficient cash leaves the state
untouched, and a successful buy has Executed status. -/
theorem C3_settler_atomicity_witness :
    (executeOrder (TradingEngine.init 10) { order_id := "ORD_0001", symbol := "X", order_type := OrderType.buy, quantity := 5, target_price := 10, timestamp := 0, status := OrderStatus.pending } 10 =
      some (TradingEngine.init 10, { order_id := "ORD_0001", symbol := "X", order_type := OrderType.buy, quantity := 5, target_price := 10, timestamp := 0, status := OrderStatus.pending }, false)) ∧
    ({ order_id := "ORD_0001", symbol := "X", order_type := OrderType.buy, quantity := 2, target_price := 5, timestamp := 0, status := OrderStatus.executed } : Order).status = OrderStatus.executed :=
  ⟨(C3_settler_atomicity (TradingEngine.init 10) _ 10).1
    (Or.inl ⟨rfl, by norm_num [TradingEngine.init]⟩),
   ((C3_settler_atomicity (TradingEngine.init 100) { order_id := "ORD_0001", symbol := "X", order_type := OrderType.buy, quantity := 2, target_price := 5, timestamp := 0, status := OrderStatus.pending } 5).2
      { balance := 90, portfolio := [("X", 2)], orders := [], market_data := [], trade_history := [{ id := "ORD_0001", symbol := "X", type := OrderType.buy, quantity := 2, price := 5, total := 10, timestamp := 0, balance_after := 90 }], clock := 1 }
      { order_id := "ORD_0001", symbol := "X", order_type := OrderType.buy, quantity := 2, target_price := 5, timestamp := 0, status := OrderStatus.executed }
      (by norm_num [executeOrder, recordTrade, TradingEngine.init, dget, dgetD, dset])).1⟩


/-- C8: a price tick for symbol `s` touches, beyond settlement effects, only
state associated with `s`: the snapshot of every other symbol is unchanged,
and every order whose symbol is not `s` keeps its status and its presence in
the ledger (the sublist of such orders is unchanged). -/
theorem C8_tick_frame (e e' : TradingEngine) (s : String) (p v : ℚ)
    (h : updateMarketPrice e s p v = some e') :
    (∀ u, u ≠ s → dget e'.market_data u = dget e.market_data u) ∧
    e'.orders.filter (fun o => decide (o.symbol ≠ s)) =
      e.orders.filter (fun o => decide (o.symbol ≠ s)) := by
  simp only [updateMarketPrice, processPendingOrders] at h
  rw [dget_dset_self] at h
  dsimp only at h
  cases hS : sweepLoop s p { e with market_data := dset e.market_data s { symbol := s, price := p, volume := v, timestamp := e.clock }, clock := e.clock + 1 } e.orders with
  | none => rw [hS] at h; exact absurd h (by simp)
  | some r =>
    obtain ⟨e2, os, exs⟩ := r
    rw [hS] at h
    dsimp only at h
    simp only [Option.some.injEq] at h
    subst h
    obtain ⟨hmd2, _, hexsym, hfil, _⟩ := sweepLoop_frame hS
    dsimp only
    constructor
    · intro u hu
      have hmd2' : dget e2.market_data u =
          dget (dset e.market_data s { symbol := s, price := p, volume := v, timestamp := e.clock }) u := by
        rw [hmd2]
      rw [hmd2', dget_dset_of_ne _ _ hu]
    · rw [List.filter_filter]
      have hcg : os.filter (fun o => decide (o.symbol ≠ s) && decide (o ∉ exs)) =
          os.filter (fun o => decide (o.symbol ≠ s)) := by
        apply List.filter_congr
        intro a ha
        by_cases hsy : a.symbol = s
        · simp [hsy]
        · have hne : a ∉ exs := fun hmem => hsy (hexsym a hmem)
          simp [hsy, hne]
      rw [hcg, hfil]

/-- Witness for C8 at a concrete tick on a fresh engine. -/
theorem C8_tick_frame_witness :
    dget ({ balance := 10000, portfolio := [], orders := [], market_data := [("X", { symbol := "X", price := 10, volume := 1, timestamp := 0 })], trade_history := [], clock := 1 } : TradingEngine).market_data "Y" =
      dget (TradingEngine.init 10000).market_data "Y" ∧
    ({ balance := 10000, portfolio := [], orders := [], market_data := [("X", { symbol := "X", price := 10, volume := 1, timestamp := 0 })], trade_history := [], clock := 1 } : TradingEngine).orders.filter (fun o => decide (o.symbol ≠ "X")) =
      (TradingEngine.init 10000).orders.filter (fun o => decide (o.symbol ≠ "X")) :=
  ⟨(C8_tick_frame (TradingEngine.init 10000) _ "X" 10 1 rfl).1 "Y" (by decide),
   (C8_tick_frame (TradingEngine.init 10000) _ "X" 10 1 rfl).2⟩

/-- C7 counterexample: re-delivering the same tick can settle an order that
failed for insufficient holdings during the first sweep (a later buy in the
same sweep provided the holdings), so the second delivery produces an
additional trade. -/
theorem C7_redelivery_counterexample :
    ((run 100 [Op.tick "X" 10 10, Op.place "X" OrderType.sell 5 5,
        Op.place "X" OrderType.buy 5 5, Op.tick "X" 5 10]).map
      (fun e => (e.trade_history.length, e.orders.length)) = some (1, 1)) ∧
    ((run 100 [Op.tick "X" 10 10, Op.place "X" OrderType.sell 5 5,
        Op.place "X" OrderType.buy 5 5, Op.tick "X" 5 10, Op.tick "X" 5 10]).map
      (fun e => (e.trade_history.length, e.orders.length)) = some (2, 0)) := by
  constructor <;>
    norm_num [run, runFrom, applyOp, updateMarketPrice, placeOrder, processPendingOrders, sweepLoop, executeOrder, recordTrade, shouldExecuteOrder, dget, dgetD, dset, derase, removeFirst, orderIdString, pad4, TradingEngine.init]

/-- C7 amended: re-delivering the same tick with no order placements in
between produces no additional trades and the same resting orders, provided
no order resting after the first delivery is still fireable at that price
(in particular, when no fireable order failed settlement during the first
sweep).  Without that proviso the claim fails: see the counterexample. -/
theorem C7_redelivery_idempotent (e e1 e2 : TradingEngine) (s : String) (p v : ℚ)
    (h1 : updateMarketPrice e s p v = some e1)
    (hq : ∀ o ∈ e1.orders, o.symbol = s → o.status = OrderStatus.pending →
      shouldExecuteOrder o p = false)
    (h2 : updateMarketPrice e1 s p v = some e2) :
    e2.trade_history = e1.trade_history ∧ e2.orders = e1.orders := by
  simp only [updateMarketPrice, processPendingOrders] at h2
  rw [dget_dset_self] at h2
  dsimp only at h2
  rw [sweepLoop_noop (fun o ho hs hp => hq o ho hs hp)] at h2
  dsimp only at h2
  simp only [Option.some.injEq] at h2
  subst h2
  constructor
  · rfl
  · dsimp only
    apply List.filter_eq_self.mpr
    intro a ha
    simp

/-- Witness for C7 at a concrete pair of identical ticks. -/
theorem C7_redelivery_idempotent_witness :
    ({ balance := 10000, portfolio := [], orders := [], market_data := [("X", { symbol := "X", price := 10, volume := 1, timestamp := 1 })], trade_history := [], clock := 2 } : TradingEngine).trade_history =
      ({ balance := 10000, portfolio := [], orders := [], market_data := [("X", { symbol := "X", price := 10, volume := 1, timestamp := 0 })], trade_history := [], clock := 1 } : TradingEngine).trade_history ∧
    ({ balance := 10000, portfolio := [], orders := [], market_data := [("X", { symbol := "X", price := 10, volume := 1, timestamp := 1 })], trade_history := [], clock := 2 } : TradingEngine).orders =
      ({ balance := 10000, portfolio := [], orders := [], market_data := [("X", { symbol := "X", price := 10, volume := 1, timestamp := 0 })], trade_history := [], clock := 1 } : TradingEngine).orders :=
  C7_redelivery_idempotent (TradingEngine.init 10000) _ _ "X" 10 1 rfl
    (by intro o ho; simp at ho) rfl

/-- C5 counterexample: with unrestricted inputs the invariant fails.  A buy
with negative quantity leaves a negative holdings entry, and a sell executed
at a negative tick price drives the balance negative; both states are
reached by plain operation sequences from a non-negative initial balance. -/
theorem C5_no_negative_counterexample :
    ((run 10000 [Op.tick "X" 10 1, Op.place "X" OrderType.buy (-1) 10]).map
      (fun e => e.portfolio) = some [("X", -1)]) ∧
    ((run 5 [Op.tick "X" 5 1, Op.place "X" OrderType.buy 1 5, Op.tick "X" (-10) 1,
        Op.place "X" OrderType.sell 1 (-10)]).map
      (fun e => e.balance) = some (-10)) ∧
    ((-1:ℚ) < 0 ∧ (-10:ℚ) < 0) := by
  refine ⟨?_, ?_, by norm_num⟩ <;>
    norm_num [run, runFrom, applyOp, updateMarketPrice, placeOrder, processPendingOrders, sweepLoop, executeOrder, recordTrade, shouldExecuteOrder, dget, dgetD, dset, derase, removeFirst, orderIdString, pad4, TradingEngine.init]

/-- C5 amended: after any sequence of operations whose tick prices and order
quantities are non-negative, starting from a non-negative initial balance,
the balance and every holdings entry are non-negative. -/
theorem C5_no_negative (b : ℚ) (ops : List Op) (e : TradingEngine)
    (hb : 0 ≤ b) (hops : ∀ op ∈ ops, nonnegInputs op = true)
    (he : run b ops = some e) :
    0 ≤ e.balance ∧ ∀ sq ∈ e.portfolio, (0:ℚ) ≤ sq.2 := by
  have hI : InvNonneg (TradingEngine.init b) :=
    ⟨hb, by simp [TradingEngine.init], by simp [TradingEngine.init],
      by simp [TradingEngine.init]⟩
  obtain ⟨h1, h2, _, _⟩ := runFrom_nonneg hI hops he
  exact ⟨h1, h2⟩

/-- Witness for C5 on a concrete two-operation run. -/
theorem C5_no_negative_witness :
    0 ≤ ({ balance := 9990, portfolio := [("X", 1)], orders := [], market_data := [("X", { symbol := "X", price := 10, volume := 1, timestamp := 0 })], trade_history := [{ id := "ORD_0001", symbol := "X", type := OrderType.buy, quantity := 1, price := 10, total := 10, timestamp := 2, balance_after := 9990 }], clock := 3 } : TradingEngine).balance ∧
    ∀ sq ∈ ({ balance := 9990, portfolio := [("X", 1)], orders := [], market_data := [("X", { symbol := "X", price := 10, volume := 1, timestamp := 0 })], trade_history := [{ id := "ORD_0001", symbol := "X", type := OrderType.buy, quantity := 1, price := 10, total := 10, timestamp := 2, balance_after := 9990 }], clock := 3 } : TradingEngine).portfolio, (0:ℚ) ≤ sq.2 :=
  C5_no_negative 10000 [Op.tick "X" 10 1, Op.place "X" OrderType.buy 1 10] _
    (by norm_num) (by norm_num [nonnegInputs])
    (by norm_num [run, runFrom, applyOp, updateMarketPrice, placeOrder, processPendingOrders, sweepLoop, executeOrder, recordTrade, shouldExecuteOrder, dget, dgetD, dset, derase, removeFirst, orderIdString, pad4, TradingEngine.init]; decide)

/-- C6 counterexample: a zero-quantity buy writes an explicit zero holdings
entry (`portfolio[s] = get(s, 0) + 0`), so the store does persist explicit
zero entries after some operations. -/
theorem C6_zero_entry_counterexample :
    (run 10000 [Op.tick "X" 10 1, Op.place "X" OrderType.buy 0 10]).map
      (fun e => e.portfolio) = some [("X", 0)] := by
  norm_num [run, runFrom, applyOp, updateMarketPrice, placeOrder, processPendingOrders, sweepLoop, executeOrder, recordTrade, shouldExecuteOrder, dget, dgetD, dset, derase, removeFirst, orderIdString, pad4, TradingEngine.init]

/-- C6 amended: a successful sell that reduces a symbol's held quantity to
exactly 0 removes the symbol from the holdings mapping (unconditionally);
and provided every placed order has positive quantity (the spec's caller
contract), the holdings store never persists a zero-quantity entry.  The
proviso is forced: a zero-quantity buy writes an explicit zero entry. -/
theorem C6_zero_cleanup :
    (∀ e o (p : ℚ) e' o', o.order_type = OrderType.sell →
      dget e.portfolio o.symbol = some o.quantity →
      executeOrder e o p = some (e', o', true) →
      dget e'.portfolio o.symbol = none) ∧
    (∀ (b : ℚ) ops e, (∀ op ∈ ops, posQuantities op = true) →
      run b ops = some e → ∀ sq ∈ e.portfolio, sq.2 ≠ 0) := by
  constructor
  · intro e o p e' o' hty hqv h
    simp only [executeOrder, hty] at h
    rw [if_pos (by rw [dget_eq_dgetD 0 hqv])] at h
    rw [(by exact hqv : dget e.portfolio o.symbol = some o.quantity)] at h
    dsimp only at h
    rw [if_pos (by ring)] at h
    simp only [Option.some.injEq, Prod.mk.injEq] at h
    obtain ⟨he, _, _⟩ := h
    subst he
    simp only [recordTrade]
    exact dget_derase_self _ _
  · intro b ops e hops he
    obtain ⟨e2, he2, hpf, _⟩ := runFrom_pos
      (e := TradingEngine.init b)
      ⟨by simp [TradingEngine.init], by simp [TradingEngine.init]⟩ hops
    simp only [run] at he
    rw [he] at he2
    simp only [Option.some.injEq] at he2
    subst he2
    intro sq hsq
    exact (ne_of_lt (hpf sq hsq)).symm

/-- Witness for C6: a sell of the full held quantity erases the entry, and a
positive-quantity run has no zero entries. -/
theorem C6_zero_cleanup_witness :
    dget ({ balance := 5, portfolio := [], orders := [], market_data := [], trade_history := [{ id := "ORD_0001", symbol := "X", type := OrderType.sell, quantity := 1, price := 5, total := 5, timestamp := 0, balance_after := 5 }], clock := 1 } : TradingEngine).portfolio "X" = none ∧
    ∀ sq ∈ ({ balance := 9990, portfolio := [("X", 1)], orders := [], market_data := [("X", { symbol := "X", price := 10, volume := 1, timestamp := 0 })], trade_history := [{ id := "ORD_0001", symbol := "X", type := OrderType.buy, quantity := 1, price := 10, total := 10, timestamp := 2, balance_after := 9990 }], clock := 3 } : TradingEngine).portfolio, sq.2 ≠ (0:ℚ) :=
  ⟨C6_zero_cleanup.1 { balance := 0, portfolio := [("X", 1)], orders := [], market_data := [], trade_history := [], clock := 0 } { order_id := "ORD_0001", symbol := "X", order_type := OrderType.sell, quantity := 1, target_price := 5, timestamp := 0, status := OrderStatus.pending } 5 { balance := 5, portfolio := [], orders := [], market_data := [], trade_history := [{ id := "ORD_0001", symbol := "X", type := OrderType.sell, quantity := 1, price := 5, total := 5, timestamp := 0, balance_after := 5 }], clock := 1 } { order_id := "ORD_0001", symbol := "X", order_type := OrderType.sell, quantity := 1, target_price := 5, timestamp := 0, status := OrderStatus.executed } rfl rfl (by norm_num [executeOrder, recordTrade, dget, dgetD, dset, derase]),
   C6_zero_cleanup.2 10000 [Op.tick "X" 10 1, Op.place "X" OrderType.buy 1 10] _
    (by norm_num [posQuantities]) (by norm_num [run, runFrom, applyOp, updateMarketPrice, placeOrder, processPendingOrders, sweepLoop, executeOrder, recordTrade, shouldExecuteOrder, dget, dgetD, dset, derase, removeFirst, orderIdString, pad4, TradingEngine.init]; decide)⟩

/-- C9 counterexample: a sell order with non-positive quantity on a symbol
absent from the holdings passes the guard `get(symbol, 0) >= quantity` and
then raises `KeyError` on `portfolio[symbol] -= quantity`; the embedded run
aborts (`none`). -/
theorem C9_totality_counterexample :
    run 10 [Op.tick "X" 10 1, Op.place "X" OrderType.sell (-1) 10] = none := by
  norm_num [run, runFrom, applyOp, updateMarketPrice, placeOrder, processPendingOrders, sweepLoop, executeOrder, recordTrade, shouldExecuteOrder, dget, dgetD, dset, derase, removeFirst, orderIdString, pad4, TradingEngine.init]

/-- C9 amended: provided every placed order has positive quantity (the
spec's caller contract), no core operation aborts: every operation sequence
runs to a defined state.  (`getPortfolioValue` and `getPerformanceMetrics`
are total functions of the state by construction.)  Without the proviso a
sell can abort: see the counterexample. -/
theorem C9_no_abort (b : ℚ) (ops : List Op)
    (hops : ∀ op ∈ ops, posQuantities op = true) :
    ∃ e, run b ops = some e := by
  obtain ⟨e, he, _⟩ := runFrom_pos
    (e := TradingEngine.init b)
    ⟨by simp [TradingEngine.init], by simp [TradingEngine.init]⟩ hops
  exact ⟨e, he⟩

/-- Witness for C9 on a concrete positive-quantity run. -/
theorem C9_no_abort_witness :
    ∃ e, run 10000 [Op.tick "X" 10 1, Op.place "X" OrderType.buy 1 10,
      Op.place "X" OrderType.sell 1 20] = some e :=
  C9_no_abort 10000 _ (by norm_num [posQuantities])

/-- C10 counterexample: the balance check is `balance >= 0` for a
zero-quantity buy, but it does not always pass: a reachable state with
negative balance (sell executed at a negative tick price) leaves the
zero-quantity buy Pending instead of executing it. -/
theorem C10_zero_quantity_buy_counterexample :
    ((run 5 [Op.tick "X" 5 1, Op.place "X" OrderType.buy 1 5, Op.tick "X" (-10) 1,
        Op.place "X" OrderType.sell 1 (-10), Op.tick "X" 10 1]).bind (fun e =>
      (placeOrder e "X" OrderType.buy 0 10).map (fun r =>
        (r.2.status, r.1.balance, r.1.orders.length, r.1.trade_history.length)))) =
      some (OrderStatus.pending, -10, 1, 2) := by
  norm_num [run, runFrom, applyOp, updateMarketPrice, placeOrder, processPendingOrders, sweepLoop, executeOrder, recordTrade, shouldExecuteOrder, dget, dgetD, dset, derase, removeFirst, orderIdString, pad4, TradingEngine.init]

/-- C10 amended: in every engine state with a non-negative balance in which
symbol `s` has a snapshot with price `p`, placing a Buy order for `s` with
quantity 0 and `target_price ≥ p` executes immediately, leaves the balance
unchanged, appends a trade record with total 0, and writes an explicit
holdings entry for `s` equal to its previous quantity (an explicit 0 when
`s` was previously absent).  The balance hypothesis is forced: with a
(reachable) negative balance the check `balance >= 0` fails. -/
theorem C10_zero_quantity_buy (e : TradingEngine) (s : String) (md : MarketData) (tp : ℚ)
    (hmd : dget e.market_data s = some md) (htp : md.price ≤ tp) (hb : 0 ≤ e.balance) :
    ∃ e' o', placeOrder e s OrderType.buy 0 tp = some (e', o') ∧
      o'.status = OrderStatus.executed ∧
      e'.balance = e.balance ∧
      e'.trade_history = e.trade_history ++
        [{ id := orderIdString (e.orders.length + 1), symbol := s, type := OrderType.buy,
           quantity := 0, price := md.price, total := 0, timestamp := e.clock + 1,
           balance_after := e.balance }] ∧
      dget e'.portfolio s = some (dgetD e.portfolio s 0) := by
  simp only [placeOrder]
  rw [hmd]
  dsimp only
  rw [if_pos (by simp [shouldExecuteOrder, htp])]
  simp only [executeOrder]
  rw [if_pos (by simpa using hb)]
  dsimp only
  rw [if_pos rfl]
  refine ⟨_, _, rfl, rfl, ?_, ?_, ?_⟩
  · simp [recordTrade]
  · simp [recordTrade]
  · simp only [recordTrade]
    rw [dget_dset_self]
    simp

/-- Witness for C10 at a concrete snapshot state. -/
theorem C10_zero_quantity_buy_witness :
    ∃ e' o', placeOrder ({ balance := 10000, portfolio := [], orders := [], market_data := [("X", { symbol := "X", price := 10, volume := 1, timestamp := 0 })], trade_history := [], clock := 1 } : TradingEngine) "X" OrderType.buy 0 10 = some (e', o') ∧
      o'.status = OrderStatus.executed ∧
      e'.balance = ({ balance := 10000, portfolio := [], orders := [], market_data := [("X", { symbol := "X", price := 10, volume := 1, timestamp := 0 })], trade_history := [], clock := 1 } : TradingEngine).balance ∧
      e'.trade_history = ({ balance := 10000, portfolio := [], orders := [], market_data := [("X", { symbol := "X", price := 10, volume := 1, timestamp := 0 })], trade_history := [], clock := 1 } : TradingEngine).trade_history ++
        [{ id := orderIdString 1, symbol := "X", type := OrderType.buy, quantity := 0,
           price := 10, total := 0, timestamp := 2, balance_after := 10000 }] ∧
      dget e'.portfolio "X" = some (dgetD ({ balance := 10000, portfolio := [], orders := [], market_data := [("X", { symbol := "X", price := 10, volume := 1, timestamp := 0 })], trade_history := [], clock := 1 } : TradingEngine).portfolio "X" 0) :=
  C10_zero_quantity_buy _ "X" { symbol := "X", price := 10, volume := 1, timestamp := 0 } 10
    rfl (by norm_num) (by norm_num)

/-- C1: the code derives the order id from `len(self.orders) + 1`, the count
of orders currently resting — not the count of orders ever placed.  Since
executed orders are removed from the list, ids repeat: two consecutive
placements that execute immediately both receive `ORD_0001`. -/
theorem C1_order_id_reuse :
    ((run 10000 [Op.tick "X" 10 1]).bind (fun e1 =>
      (placeOrder e1 "X" OrderType.buy 0 10).bind (fun p1 =>
        (placeOrder p1.1 "X" OrderType.buy 0 10).map (fun p2 =>
          (p1.2.order_id, p1.2.status, p2.2.order_id))))) =
      some ("ORD_0001", OrderStatus.executed, "ORD_0001") := by
  norm_num [run, runFrom, applyOp, updateMarketPrice, placeOrder, processPendingOrders, sweepLoop, executeOrder, recordTrade, shouldExecuteOrder, dget, dgetD, dset, derase, removeFirst, orderIdString, pad4, TradingEngine.init]
  decide

/-- C2: `get_performance_metrics` hardcodes `initial_value = 10000.0`
instead of the balance supplied at construction.  For an engine constructed
with balance 5000 and no further operations the portfolio value is 5000, so
the claimed `total_return` is 0 and `return_percentage` is 0, but the code
returns -5000 and -50. -/
theorem C2_metrics_hardcoded :
    getPortfolioValue (TradingEngine.init 5000) = 5000 ∧
    (getPerformanceMetrics (TradingEngine.init 5000)).total_return = -5000 ∧
    (getPerformanceMetrics (TradingEngine.init 5000)).return_percentage = -50 := by
  refine ⟨?_, ?_, ?_⟩ <;>
    norm_num [getPerformanceMetrics, getPortfolioValue, TradingEngine.init]

end Trading
